import Mathlib

/-!
Verification of the PeekXtract remote ZIP engine (src/peekxtract.py and
src/main.py) against its natural-language specification.  Python byte strings
are modelled as `List Nat` (each element a byte value), `struct.unpack`
little-endian reads as folds over byte slices, and functions that can raise
are modelled with `Option`.  Loops that advance by a data-dependent stride are
written with an explicit fuel argument; the fuel passed at every entry point
strictly exceeds the largest possible number of iterations, so it never runs
out on the modelled inputs.
-/

namespace PeekXtract

/-- Little-endian value of a byte list: `struct.unpack` with format `<H`, `<I`
or `<Q` applied to the whole list. -/
def leVal (bs : List Nat) : Nat := bs.foldr (fun b acc => b + 256 * acc) 0

/-- Two-byte little-endian read at index `i`, `struct.unpack('<H', data[i:i+2])`.
Callers only use it under a bounds guard, as the Python code does. -/
def sub16 (data : List Nat) (i : Nat) : Nat := leVal ((data.drop i).take 2)

/-- Four-byte little-endian read at index `i`, `struct.unpack('<I', data[i:i+4])`. -/
def sub32 (data : List Nat) (i : Nat) : Nat := leVal ((data.drop i).take 4)

/-- Eight-byte little-endian read at index `i`, `struct.unpack('<Q', data[i:i+8])`.
`none` models the `struct.error` Python raises when the slice is shorter than
eight bytes. -/
def readU64 (data : List Nat) (i : Nat) : Option Nat :=
  if i + 8 ≤ data.length then some (leVal ((data.drop i).take 8)) else none

/-- Little-endian encoding of a 32-bit value into four bytes. -/
def enc32 (v : Nat) : List Nat :=
  [v % 256, v / 256 % 256, v / 65536 % 256, v / 16777216 % 256]

/-- Little-endian encoding of a 64-bit value into eight bytes. -/
def enc64 (v : Nat) : List Nat :=
  [v % 256, v / 256 % 256, v / 65536 % 256, v / 16777216 % 256,
   v / 4294967296 % 256, v / 1099511627776 % 256,
   v / 281474976710656 % 256, v / 72057594037927936 % 256]

theorem enc64_length (v : Nat) : (enc64 v).length = 8 := rfl

theorem leVal_enc64 (v : Nat) (hv : v < 18446744073709551616) : leVal (enc64 v) = v := by
  simp only [enc64, leVal, List.foldr]
  omega

theorem readU64_append (pre suf : List Nat) (v : Nat)
    (hv : v < 18446744073709551616) :
    readU64 (pre ++ (enc64 v ++ suf)) pre.length = some v := by
  have hlen : (pre ++ (enc64 v ++ suf)).length = pre.length + (8 + suf.length) := by
    simp [enc64_length]
  have hdrop : (pre ++ (enc64 v ++ suf)).drop pre.length = enc64 v ++ suf :=
    List.drop_left pre (enc64 v ++ suf)
  have htake : (enc64 v ++ suf).take 8 = enc64 v := by
    have := List.take_left (enc64 v) suf
    rwa [enc64_length] at this
  rw [readU64, if_pos (by omega), hdrop, htake, leVal_enc64 v hv]

/-! ## ZIP64 extended-information extra field
Model of `EnhancedRemoteZipReader._parse_zip64_extra_field`
(src/peekxtract.py lines 520-541).  The outer loop walks the extra field in
(header_id, data_size, payload) blocks; inside the `0x0001` block successive
8-byte fields are consumed for each header value equal to the 32-bit sentinel
`0xFFFFFFFF`, in the order uncompressed_size, compressed_size,
local_header_offset.  Result: `none` models a propagated `struct.error`;
`some none` models the Python `return None` (no ZIP64 extra present);
`some (some (u, c, o))` is the returned triple
`(real_uncompressed, real_compressed, real_local_header_offset)`. -/

/-- One conditional 8-byte consumption step: mirrors
`if <field> == 0xFFFFFFFF and field_offset + 8 <= data_size: ... field_offset += 8`.
Returns the (possibly replaced) value and the updated `field_offset`. -/
def consumeField (extra : List Nat) (base dataSize origVal fieldOff : Nat) :
    Option (Nat × Nat) :=
  if origVal = 4294967295 ∧ fieldOff + 8 ≤ dataSize then
    (readU64 extra (base + fieldOff)).map (fun v => (v, fieldOff + 8))
  else some (origVal, fieldOff)

/-- The extra-field walk of `_parse_zip64_extra_field`; `fuel` bounds the
number of loop iterations (each iteration advances `off` by at least 4). -/
def parseZip64Aux (extra : List Nat) (cs us lho : Nat) :
    Nat → Nat → Option (Option (Nat × Nat × Nat))
  | 0, _ => some none
  | fuel + 1, off =>
    if off + 4 ≤ extra.length then
      let headerId := sub16 extra off
      let dataSize := sub16 extra (off + 2)
      if headerId = 1 then
        match consumeField extra (off + 4) dataSize us 0 with
        | none => none
        | some (ru, f1) =>
          match consumeField extra (off + 4) dataSize cs f1 with
          | none => none
          | some (rc, f2) =>
            match consumeField extra (off + 4) dataSize lho f2 with
            | none => none
            | some (ro, _) => some (some (ru, rc, ro))
      else
        parseZip64Aux extra cs us lho fuel (off + 4 + dataSize)
    else
      some none

/-- `_parse_zip64_extra_field(extra_data, compressed_size, uncompressed_size,
local_header_offset)` from src/peekxtract.py. -/
def parseZip64ExtraField (extra : List Nat) (cs us lho : Nat) :
    Option (Option (Nat × Nat × Nat)) :=
  parseZip64Aux extra cs us lho (extra.length + 1) 0

/-- One-step unfolding of the extra-field walk. -/
theorem parseZip64Aux_step (extra : List Nat) (cs us lho fuel off : Nat) :
    parseZip64Aux extra cs us lho (fuel + 1) off =
      if off + 4 ≤ extra.length then
        if sub16 extra off = 1 then
          match consumeField extra (off + 4) (sub16 extra (off + 2)) us 0 with
          | none => none
          | some (ru, f1) =>
            match consumeField extra (off + 4) (sub16 extra (off + 2)) cs f1 with
            | none => none
            | some (rc, f2) =>
              match consumeField extra (off + 4) (sub16 extra (off + 2)) lho f2 with
              | none => none
              | some (ro, _) => some (some (ru, rc, ro))
        else
          parseZip64Aux extra cs us lho fuel (off + 4 + sub16 extra (off + 2))
      else some none := rfl

/-- A ZIP64 extra field whose `0x0001` block carries the two 8-byte values 111
and 222 (data_size 16), for a central-directory record whose compressed and
uncompressed sizes are both sentinel. -/
def c1Extra : List Nat := [1, 0, 16, 0] ++ enc64 111 ++ enc64 222

/-- C1, counterexample.  With both `compressed_size` and `uncompressed_size`
equal to the sentinel and the ZIP64 extra carrying the consecutive 8-byte
values 111 then 222, `_parse_zip64_extra_field` returns
`(uncompressed, compressed, offset) = (111, 222, 5)`: the FIRST 8-byte field
is assigned to `uncompressed_size`.  The claim requires consumption in the
order the fields appear in the 46-byte fixed header, where `compressed_size`
precedes `uncompressed_size`, which would yield `(222, 111, 5)` instead. -/
theorem C1_counterexample :
    parseZip64ExtraField c1Extra 4294967295 4294967295 5 = some (some (111, 222, 5)) ∧
    ((111, 222, 5) : Nat × Nat × Nat) ≠ (222, 111, 5) := by
  constructor
  · rfl
  · decide

/-- C1, amended.  The 8-byte fields of the ZIP64 extra are consumed in the
fixed APPNOTE order uncompressed_size, compressed_size, local_header_offset
(a field consumes a slot only when its 32-bit header value is sentinel) —
not in the order the fields appear in the fixed header.  First conjunct: all
three sentinel, payload `u ++ c ++ o`; second conjunct: only the two sizes
sentinel, payload `u ++ c`, offset kept from the header. -/
theorem C1_zip64_extra_order (u c o : Nat)
    (hu : u < 18446744073709551616) (hc : c < 18446744073709551616)
    (ho : o < 18446744073709551616) :
    parseZip64ExtraField ([1, 0, 24, 0] ++ enc64 u ++ enc64 c ++ enc64 o)
      4294967295 4294967295 4294967295 = some (some (u, c, o)) ∧
    parseZip64ExtraField ([1, 0, 16, 0] ++ enc64 u ++ enc64 c)
      4294967295 4294967295 7 = some (some (u, c, 7)) := by
  constructor
  · have h1 : readU64 ([1, 0, 24, 0] ++ enc64 u ++ enc64 c ++ enc64 o) 4 = some u := by
      have := readU64_append [1, 0, 24, 0] (enc64 c ++ enc64 o) u hu
      simpa [List.append_assoc] using this
    have h2 : readU64 ([1, 0, 24, 0] ++ enc64 u ++ enc64 c ++ enc64 o) 12 = some c := by
      have := readU64_append ([1, 0, 24, 0] ++ enc64 u) (enc64 o) c hc
      simpa [List.append_assoc, enc64_length] using this
    have h3 : readU64 ([1, 0, 24, 0] ++ enc64 u ++ enc64 c ++ enc64 o) 20 = some o := by
      have := readU64_append ([1, 0, 24, 0] ++ enc64 u ++ enc64 c) [] o ho
      simpa [List.append_assoc, enc64_length] using this
    have hlen : ([1, 0, 24, 0] ++ enc64 u ++ enc64 c ++ enc64 o).length = 28 := by
      simp [enc64_length]
    have hA : sub16 ([1, 0, 24, 0] ++ enc64 u ++ enc64 c ++ enc64 o) 0 = 1 := by
      simp [sub16, leVal]
    have hB : sub16 ([1, 0, 24, 0] ++ enc64 u ++ enc64 c ++ enc64 o) 2 = 24 := by
      simp [sub16, leVal]
    rw [parseZip64ExtraField, hlen, parseZip64Aux_step]
    generalize hE : [1, 0, 24, 0] ++ enc64 u ++ enc64 c ++ enc64 o = E at h1 h2 h3 hlen hA hB ⊢
    simp [hlen, hA, hB, consumeField, h1, h2, h3]
  · have h1 : readU64 ([1, 0, 16, 0] ++ enc64 u ++ enc64 c) 4 = some u := by
      have := readU64_append [1, 0, 16, 0] (enc64 c) u hu
      simpa [List.append_assoc] using this
    have h2 : readU64 ([1, 0, 16, 0] ++ enc64 u ++ enc64 c) 12 = some c := by
      have := readU64_append ([1, 0, 16, 0] ++ enc64 u) [] c hc
      simpa [List.append_assoc, enc64_length] using this
    have hlen : ([1, 0, 16, 0] ++ enc64 u ++ enc64 c).length = 20 := by
      simp [enc64_length]
    have hA : sub16 ([1, 0, 16, 0] ++ enc64 u ++ enc64 c) 0 = 1 := by
      simp [sub16, leVal]
    have hB : sub16 ([1, 0, 16, 0] ++ enc64 u ++ enc64 c) 2 = 16 := by
      simp [sub16, leVal]
    rw [parseZip64ExtraField, hlen, parseZip64Aux_step]
    generalize hE : [1, 0, 16, 0] ++ enc64 u ++ enc64 c = E at h1 h2 hlen hA hB ⊢
    simp [hlen, hA, hB, consumeField, h1, h2]

/-- Witness for C1_zip64_extra_order at concrete field values. -/
theorem C1_zip64_extra_order_witness :
    (111 : Nat) < 18446744073709551616 ∧ (222 : Nat) < 18446744073709551616 ∧
    (333 : Nat) < 18446744073709551616 ∧
    (parseZip64ExtraField ([1, 0, 24, 0] ++ enc64 111 ++ enc64 222 ++ enc64 333)
        4294967295 4294967295 4294967295 = some (some (111, 222, 333)) ∧
      parseZip64ExtraField ([1, 0, 16, 0] ++ enc64 111 ++ enc64 222)
        4294967295 4294967295 7 = some (some (111, 222, 7))) :=
  ⟨by norm_num, by norm_num, by norm_num,
    C1_zip64_extra_order 111 222 333 (by norm_num) (by norm_num) (by norm_num)⟩

/-! ## End of Central Directory location
Models of `_find_end_of_central_directory` in src/peekxtract.py (lines
427-454) and src/main.py (lines 260-287).  Both scan the trailing window
backward for the EOCD signature bytes `50 4b 05 06`, decode the 22-byte fixed
record with `struct.unpack('<IHHHHIIH')`, and then test whether to switch to
the ZIP64 path.  The two files differ exactly in that test:
peekxtract.py line 443 tests `cd_offset == 0xFFFFFFFF or
cd_entries_total == 0xFFFF`, while main.py line 281 additionally tests
`cd_size == 0xFFFFFFFF`.  `EOCDOutcome.zip64Path` records that the ZIP64
branch was entered (both files then call their ZIP64-locator routine);
`EOCDOutcome.plain` is the direct `return cd_offset, cd_size`. -/

inductive EOCDOutcome where
  | notFound : EOCDOutcome
  | plain : Nat → Nat → EOCDOutcome
  | zip64Path : Nat → EOCDOutcome
deriving DecidableEq

/-- EOCD signature bytes `b'\x50\x4b\x05\x06'`. -/
def eocdSig : List Nat := [80, 75, 5, 6]

/-- Decode the 22-byte EOCD record at window index `i` and apply the
file-specific ZIP64 test `cond cd_offset cd_entries_total cd_size`. -/
def decodeEOCDAt (cond : Nat → Nat → Nat → Bool) (startPos : Nat)
    (data : List Nat) (i : Nat) : EOCDOutcome :=
  let cdEntriesTotal := sub16 data (i + 10)
  let cdSize := sub32 data (i + 12)
  let cdOffset := sub32 data (i + 16)
  if cond cdOffset cdEntriesTotal cdSize then EOCDOutcome.zip64Path (startPos + i)
  else EOCDOutcome.plain cdOffset cdSize

/-- Backward scan `for i in range(len(data) - 22, -1, -1)` comparing
`data[i:i+4]` against the EOCD signature. -/
def scanEOCD (cond : Nat → Nat → Nat → Bool) (startPos : Nat)
    (data : List Nat) : Nat → EOCDOutcome
  | 0 =>
    if (data.drop 0).take 4 = eocdSig then decodeEOCDAt cond startPos data 0
    else EOCDOutcome.notFound
  | i + 1 =>
    if (data.drop (i + 1)).take 4 = eocdSig then decodeEOCDAt cond startPos data (i + 1)
    else scanEOCD cond startPos data i

/-- The shared scan over the trailing window (`data` is the
`min(4096, file_size)`-byte tail starting at `startPos`). -/
def findEOCD (cond : Nat → Nat → Nat → Bool) (startPos : Nat)
    (data : List Nat) : EOCDOutcome :=
  if data.length < 22 then EOCDOutcome.notFound
  else scanEOCD cond startPos data (data.length - 22)

/-- ZIP64 switch test of src/peekxtract.py line 443: cd_size is NOT tested. -/
def zip64CondPeekxtract (cdOffset cdEntriesTotal cdSize : Nat) : Bool :=
  cdOffset == 4294967295 || cdEntriesTotal == 65535

/-- ZIP64 switch test of src/main.py line 281: all three sentinels tested. -/
def zip64CondMain (cdOffset cdEntriesTotal cdSize : Nat) : Bool :=
  cdOffset == 4294967295 || cdEntriesTotal == 65535 || cdSize == 4294967295

/-- `_find_end_of_central_directory` of src/peekxtract.py. -/
def findEOCDPeekxtract (startPos : Nat) (data : List Nat) : EOCDOutcome :=
  findEOCD zip64CondPeekxtract startPos data

/-- `_find_end_of_central_directory` of src/main.py. -/
def findEOCDMain (startPos : Nat) (data : List Nat) : EOCDOutcome :=
  findEOCD zip64CondMain startPos data

/-- A 22-byte EOCD record in which only `cd_size` is sentinel:
cd_entries_total = 5, cd_size = 0xFFFFFFFF, cd_offset = 100, no comment. -/
def c2Window : List Nat :=
  [80, 75, 5, 6, 0, 0, 0, 0, 5, 0, 5, 0, 255, 255, 255, 255, 100, 0, 0, 0, 0, 0]

/-- C2: for an EOCD in which `cd_size` alone equals `0xFFFFFFFF`, main.py
switches to the ZIP64 path as the claim states, but peekxtract.py (whose
test at line 443 omits the `cd_size` comparison) stays on the plain path and
returns the sentinel `cd_size` itself, so the current engine contradicts the
claim, the spec, and its own sibling implementation. -/
theorem C2_cd_size_sentinel_ignored :
    findEOCDMain 0 c2Window = EOCDOutcome.zip64Path 0 ∧
    findEOCDPeekxtract 0 c2Window = EOCDOutcome.plain 100 4294967295 := by
  constructor
  · rfl
  · rfl

/-! ## ZIP64 End of Central Directory Locator fallback scan
Models of `_fallback_find_zip64_locator` (src/peekxtract.py lines 408-425)
and `_search_zip64_locator_fallback` (src/main.py lines 213-234).  Both read
the trailing `min(8192, file_size)` bytes starting at
`max(0, file_size - search_size)` and scan `for i in range(len(data) - 20,
-1, -1)` for a hard-coded 4-byte signature; they differ in that byte string:
peekxtract.py uses `b'\x50\x4b\x06\x07'` while main.py uses
`b'\x50\x4b\x07\x06'`. -/

/-- Locator signature bytes of src/peekxtract.py line 411. -/
def zip64LocatorSigPeekxtract : List Nat := [80, 75, 6, 7]

/-- Locator signature bytes of src/main.py line 217. -/
def zip64LocatorSigMain : List Nat := [80, 75, 7, 6]

/-- `search_size = min(8192, self.file_size)`. -/
def fallbackSearchSize (fileSize : Nat) : Nat := min 8192 fileSize

/-- `start_pos = max(0, self.file_size - search_size)`. -/
def fallbackStartPos (fileSize : Nat) : Nat :=
  max 0 (fileSize - fallbackSearchSize fileSize)

/-- Backward scan `for i in range(len(data) - 20, -1, -1)` comparing
`data[i:i+4]` against the given signature bytes. -/
def fallbackScanGo (sig data : List Nat) : Nat → Option Nat
  | 0 => if (data.drop 0).take 4 = sig then some 0 else none
  | i + 1 =>
    if (data.drop (i + 1)).take 4 = sig then some (i + 1)
    else fallbackScanGo sig data i

/-- The fallback locator search over the trailing window; `none` models the
"ZIP64 End of Central Directory Locator not found" exception. -/
def fallbackScan (sig data : List Nat) : Option Nat :=
  if data.length < 20 then none else fallbackScanGo sig data (data.length - 20)

/-- A trailing window that begins with a genuine ZIP64 locator record
(signature `50 4b 06 07` followed by its 16 fixed bytes). -/
def c6Window : List Nat := [80, 75, 6, 7] ++ List.replicate 20 0

/-- C6: the fallback scan reads the trailing `min(8192, length)` bytes, and
the authoritative locator signature `0x07064b50` has little-endian bytes
`50 4b 06 07`, which is what peekxtract.py searches for — but main.py's
fallback searches for `50 4b 07 06` instead, so on a window containing a
genuine locator peekxtract.py finds it and main.py reports it absent. -/
theorem C6_locator_signature_mismatch :
    enc32 0x07064b50 = zip64LocatorSigPeekxtract ∧
    zip64LocatorSigMain ≠ zip64LocatorSigPeekxtract ∧
    (∀ n, fallbackStartPos n + fallbackSearchSize n = n ∧ fallbackSearchSize n ≤ 8192) ∧
    fallbackScan zip64LocatorSigPeekxtract c6Window = some 0 ∧
    fallbackScan zip64LocatorSigMain c6Window = none := by
  refine ⟨by decide, by decide, ?_, by decide, by decide⟩
  intro n
  simp only [fallbackStartPos, fallbackSearchSize]
  omega

/-! ## Chunk planning in download_file
Model of the chunk geometry and chunk boundary computation of
`EnhancedRemoteZipReader.download_file` (src/peekxtract.py lines 674-736).
The method first probes the local header, replaces `expected_size` by the
local-header `compressed_size` when that is larger, then selects
`chunk_size`/`max_workers` from the finalized `expected_size`, computes
`total_chunks = (expected_size + chunk_size - 1) // chunk_size`, and task
`i` fetches `[data_offset + i*chunk_size,
min(data_offset + (i+1)*chunk_size - 1, data_offset + expected_size - 1)]`. -/

/-- `if actual_compressed_size > expected_size: expected_size =
actual_compressed_size` (lines 675-677). -/
def finalizeCompressedSize (cdSize lhSize : Nat) : Nat :=
  if cdSize < lhSize then lhSize else cdSize

/-- The chunk-size / worker-count selection of lines 697-704; the final
branch leaves `max_workers` at the parameter value (default 4). -/
def downloadChunkGeometry (expectedSize maxWorkers : Nat) : Nat × Nat :=
  if 1073741824 < expectedSize then (16777216, 2)
  else if 104857600 < expectedSize then (8388608, 3)
  else (4194304, maxWorkers)

/-- `total_chunks = (expected_size + chunk_size - 1) // chunk_size`. -/
def totalChunks (c k : Nat) : Nat := (c + k - 1) / k

/-- `start = data_offset + idx * chunk_size` in `fetch_chunk`. -/
def chunkStart (p k i : Nat) : Nat := p + i * k

/-- `end = min(start + chunk_size - 1, data_offset + expected_size - 1)`. -/
def chunkEnd (p c k i : Nat) : Nat := min (chunkStart p k i + k - 1) (p + c - 1)

/-- Byte `b` lies in the inclusive range fetched by chunk `i`. -/
def inChunk (p c k i b : Nat) : Prop := chunkStart p k i ≤ b ∧ b ≤ chunkEnd p c k i

instance (p c k i b : Nat) : Decidable (inChunk p c k i b) := by
  unfold inChunk; infer_instance

/-- The full sequencing of download_file: finalize the size from the
central-directory and local-header values, then derive geometry and chunk
count from the finalized size.  Returns
(expected_size, chunk_size, max_workers, total_chunks). -/
def downloadPlan (cdSize lhSize maxWorkers : Nat) : Nat × Nat × Nat × Nat :=
  let expectedSize := finalizeCompressedSize cdSize lhSize
  let geom := downloadChunkGeometry expectedSize maxWorkers
  (expectedSize, geom.1, geom.2, totalChunks expectedSize geom.1)

/-- Ceiling division covers: `c ≤ ((c + k - 1) / k) * k` for `0 < k`. -/
theorem le_totalChunks_mul (c k : Nat) (hk : 0 < k) : c ≤ totalChunks c k * k := by
  rcases Nat.eq_zero_or_pos c with h | h
  · simp [h]
  · unfold totalChunks
    have h1 : k * ((c + k - 1) / k) + (c + k - 1) % k = c + k - 1 :=
      Nat.div_add_mod _ _
    have h2 : (c + k - 1) % k < k := Nat.mod_lt _ hk
    rw [Nat.mul_comm]
    generalize k * ((c + k - 1) / k) = m at h1 ⊢
    omega

/-- Division characterization: if `i * k ≤ d < i * k + k` then `d / k = i`. -/
theorem div_eq_of_between (d k i : Nat) (hk : 0 < k) (h1 : i * k ≤ d)
    (h2 : d < i * k + k) : d / k = i := by
  have h3 : d / k < i + 1 := by
    apply (Nat.div_lt_iff_lt_mul hk).mpr
    calc d < i * k + k := h2
    _ = (i + 1) * k := by ring
  have h4 : i ≤ d / k := (Nat.le_div_iff_mul_le hk).mpr h1
  omega

/-- Any byte in some chunk determines the chunk index. -/
theorem inChunk_index (p c k i b : Nat) (hk : 0 < k) (h : inChunk p c k i b) :
    (b - p) / k = i := by
  obtain ⟨hs, he⟩ := h
  have he1 : b ≤ chunkStart p k i + k - 1 := le_trans he (Nat.min_le_left _ _)
  unfold chunkStart at hs he1
  apply div_eq_of_between _ _ _ hk
  · generalize i * k = m at hs he1 ⊢
    omega
  · generalize i * k = m at hs he1 ⊢
    omega

/-- C3: the chunk ranges planned by download_file are pairwise disjoint and
their union is exactly the payload interval
`[payload_start, payload_start + compressed_size)`: every payload byte lies
in some chunk with index below `total_chunks`, every chunk byte is a payload
byte, and no byte lies in two distinct chunks. -/
theorem C3_chunk_coverage (p c k : Nat) (hc : 0 < c) (hk : 0 < k) :
    (∀ b, (p ≤ b ∧ b < p + c) ↔ ∃ i, i < totalChunks c k ∧ inChunk p c k i b) ∧
    (∀ i j b, inChunk p c k i b → inChunk p c k j b → i = j) := by
  constructor
  · intro b
    constructor
    · rintro ⟨hpb, hbc⟩
      refine ⟨(b - p) / k, ?_, ?_, ?_⟩
      · apply (Nat.div_lt_iff_lt_mul hk).mpr
        exact lt_of_lt_of_le (by omega) (le_totalChunks_mul c k hk)
      · unfold chunkStart
        have := Nat.div_mul_le_self (b - p) k
        omega
      · unfold chunkEnd chunkStart
        have hdm : k * ((b - p) / k) + (b - p) % k = b - p := Nat.div_add_mod _ _
        have hml : (b - p) % k < k := Nat.mod_lt _ hk
        rw [Nat.mul_comm] at hdm
        apply le_min
        · generalize (b - p) / k * k = m at hdm ⊢
          omega
        · omega
    · rintro ⟨i, _, hs, he⟩
      unfold chunkStart at hs
      have he1 : b ≤ p + c - 1 := le_trans he (Nat.min_le_right _ _)
      constructor
      · have : p ≤ p + i * k := Nat.le_add_right _ _
        omega
      · omega
  · intro i j b hi hj
    have h1 := inChunk_index p c k i b hk hi
    have h2 := inChunk_index p c k j b hk hj
    omega

/-- Witness for C3_chunk_coverage at `p = 3`, `c = 10`, `k = 4`. -/
theorem C3_chunk_coverage_witness :
    (0 : Nat) < 10 ∧ (0 : Nat) < 4 ∧
    ((∀ b, (3 ≤ b ∧ b < 3 + 10) ↔ ∃ i, i < totalChunks 10 4 ∧ inChunk 3 10 4 i b) ∧
      (∀ i j b, inChunk 3 10 4 i b → inChunk 3 10 4 j b → i = j)) :=
  ⟨by decide, by decide, C3_chunk_coverage 3 10 4 (by decide) (by decide)⟩

/-- C4: download_file finalizes the compressed size as the larger of the
central-directory and local-header sizes, chunk geometry is then selected
from that finalized size (16 MiB / 2 workers above 1 GiB, 8 MiB / 3 workers
above 100 MiB, else 4 MiB / 4 workers with the default parameter), and the
resulting `total_chunks * chunk_size` covers the finalized payload length. -/
theorem C4_geometry_after_probe (cdSize lhSize : Nat) :
    finalizeCompressedSize cdSize lhSize = max cdSize lhSize ∧
    downloadPlan cdSize lhSize 4 =
      (max cdSize lhSize,
        (downloadChunkGeometry (max cdSize lhSize) 4).1,
        (downloadChunkGeometry (max cdSize lhSize) 4).2,
        totalChunks (max cdSize lhSize) (downloadChunkGeometry (max cdSize lhSize) 4).1) ∧
    (1073741824 < max cdSize lhSize →
      downloadChunkGeometry (max cdSize lhSize) 4 = (16777216, 2)) ∧
    (max cdSize lhSize ≤ 1073741824 → 104857600 < max cdSize lhSize →
      downloadChunkGeometry (max cdSize lhSize) 4 = (8388608, 3)) ∧
    (max cdSize lhSize ≤ 104857600 →
      downloadChunkGeometry (max cdSize lhSize) 4 = (4194304, 4)) ∧
    max cdSize lhSize ≤
      totalChunks (max cdSize lhSize) (downloadChunkGeometry (max cdSize lhSize) 4).1 *
        (downloadChunkGeometry (max cdSize lhSize) 4).1 := by
  have hmax : finalizeCompressedSize cdSize lhSize = max cdSize lhSize := by
    unfold finalizeCompressedSize
    split <;> omega
  refine ⟨hmax, ?_, ?_, ?_, ?_, ?_⟩
  · unfold downloadPlan
    rw [hmax]
  · intro h
    unfold downloadChunkGeometry
    rw [if_pos h]
  · intro h1 h2
    unfold downloadChunkGeometry
    rw [if_neg (by omega), if_pos h2]
  · intro h
    unfold downloadChunkGeometry
    rw [if_neg (by omega), if_neg (by omega)]
  · have hpos : 0 < (downloadChunkGeometry (max cdSize lhSize) 4).1 := by
      unfold downloadChunkGeometry
      split
      · decide
      · split <;> decide
    exact le_totalChunks_mul _ _ hpos

/-- Witness for C4_geometry_after_probe at `cdSize = 50`, `lhSize = 70`. -/
theorem C4_geometry_after_probe_witness :
    finalizeCompressedSize 50 70 = max 50 70 ∧
    downloadPlan 50 70 4 =
      (max 50 70, (downloadChunkGeometry (max 50 70) 4).1,
        (downloadChunkGeometry (max 50 70) 4).2,
        totalChunks (max 50 70) (downloadChunkGeometry (max 50 70) 4).1) ∧
    (1073741824 < max 50 70 → downloadChunkGeometry (max 50 70) 4 = (16777216, 2)) ∧
    (max 50 70 ≤ 1073741824 → 104857600 < max 50 70 →
      downloadChunkGeometry (max 50 70) 4 = (8388608, 3)) ∧
    (max 50 70 ≤ 104857600 → downloadChunkGeometry (max 50 70) 4 = (4194304, 4)) ∧
    max 50 70 ≤
      totalChunks (max 50 70) (downloadChunkGeometry (max 50 70) 4).1 *
        (downloadChunkGeometry (max 50 70) 4).1 :=
  C4_geometry_after_probe 50 70

/-! ## Ranged reads with retry
Model of `EnhancedRemoteZipReader._read_bytes` (src/peekxtract.py lines
368-385).  The network is abstracted as an oracle mapping the attempt number
to either `none` (a requests exception: connection error or timeout) or
`some` HTTP response.  Per attempt the code raises unless
`response.status_code in [206, 200]` and otherwise returns
`response.content` unconditionally — the requested span length is used only
to format the `Range` header and is never compared with the body length.
`readBytesModel` returns the result (`none` models the final re-raise after
`max_retries` attempts) paired with the chronological list of back-off
sleeps, each `2 ** attempt` seconds. -/

structure HttpResponse where
  status : Nat
  content : List Nat

/-- Result of one attempt: `none` when the attempt raises (network exception
or a status outside `[206, 200]`), otherwise the returned body. -/
def attemptOutcome (resp : Option HttpResponse) : Option (List Nat) :=
  match resp with
  | none => none
  | some r => if r.status = 206 ∨ r.status = 200 then some r.content else none

/-- The retry loop `for attempt in range(max_retries)`, unrolled on the
number of remaining iterations. -/
def readBytesGo (resp : Nat → Option HttpResponse) (maxRetries : Nat) :
    Nat → Nat → Option (List Nat) × List Nat
  | 0, _ => (none, [])
  | remaining + 1, attempt =>
    match attemptOutcome (resp attempt) with
    | some content => (some content, [])
    | none =>
      if attempt < maxRetries - 1 then
        ((readBytesGo resp maxRetries remaining (attempt + 1)).1,
          2 ^ attempt :: (readBytesGo resp maxRetries remaining (attempt + 1)).2)
      else (none, [])

/-- One-step unfolding of the retry loop. -/
theorem readBytesGo_succ (resp : Nat → Option HttpResponse)
    (maxRetries remaining attempt : Nat) :
    readBytesGo resp maxRetries (remaining + 1) attempt =
      match attemptOutcome (resp attempt) with
      | some content => (some content, [])
      | none =>
        if attempt < maxRetries - 1 then
          ((readBytesGo resp maxRetries remaining (attempt + 1)).1,
            2 ^ attempt :: (readBytesGo resp maxRetries remaining (attempt + 1)).2)
        else (none, []) := rfl

/-- `_read_bytes(start, length)` with the default `max_retries = 3`; `start`
and `length` only shape the `Range` header and never affect control flow. -/
def readBytesModel (start length : Nat) (resp : Nat → Option HttpResponse) :
    Option (List Nat) × List Nat :=
  readBytesGo resp 3 3 0

/-- Number of failed attempts after which a sleep occurs (no sleep follows
the final attempt). -/
def failCount (resp : Nat → Option HttpResponse) : Nat :=
  if attemptOutcome (resp 0) = none then
    (if attemptOutcome (resp 1) = none then 2 else 1)
  else 0

/-- C5, counterexample.  When every attempt fails, `_read_bytes` sleeps 1s
then 2s and then surfaces the error: the sleep list is `[1, 2]`, not the
`[1, 2, 4]` sequence the claim describes — with three attempts total there
are only two sleeps and a 4-second sleep never occurs. -/
theorem C5_counterexample :
    readBytesModel 0 1 (fun _ => none) = (none, [1, 2]) ∧
    ([1, 2] : List Nat) ≠ [1, 2, 4] := by
  constructor
  · rfl
  · decide

/-- C5, amended.  `_read_bytes` makes up to three attempts total, sleeping
`2 ** attempt` seconds after each failed non-final attempt — 1s after the
first failure and 2s after the second — and surfaces the error if and only
if all three attempts fail (in which case exactly the sleeps 1s, 2s
occurred). -/
theorem C5_retry_backoff (start length : Nat) (resp : Nat → Option HttpResponse) :
    (readBytesModel start length resp).2 = List.take (failCount resp) [1, 2] ∧
    ((readBytesModel start length resp).1 = none ↔
      attemptOutcome (resp 0) = none ∧ attemptOutcome (resp 1) = none ∧
        attemptOutcome (resp 2) = none) := by
  have s0 : readBytesModel start length resp = readBytesGo resp 3 3 0 := rfl
  have u0 : readBytesGo resp 3 3 0 =
      (match attemptOutcome (resp 0) with
        | some content => (some content, [])
        | none => ((readBytesGo resp 3 2 1).1, 1 :: (readBytesGo resp 3 2 1).2)) := rfl
  have u1 : readBytesGo resp 3 2 1 =
      (match attemptOutcome (resp 1) with
        | some content => (some content, [])
        | none => ((readBytesGo resp 3 1 2).1, 2 :: (readBytesGo resp 3 1 2).2)) := rfl
  have u2 : readBytesGo resp 3 1 2 =
      (match attemptOutcome (resp 2) with
        | some content => (some content, [])
        | none => (none, [])) := rfl
  cases h0 : attemptOutcome (resp 0) with
  | some c0 => simp [s0, u0, failCount, h0]
  | none =>
    cases h1 : attemptOutcome (resp 1) with
    | some c1 => simp [s0, u0, u1, failCount, h0, h1]
    | none =>
      cases h2 : attemptOutcome (resp 2) with
      | some c2 => simp [s0, u0, u1, u2, failCount, h0, h1, h2]
      | none => simp [s0, u0, u1, u2, failCount, h0, h1, h2]

/-- Witness for C5_retry_backoff with the all-failures oracle. -/
theorem C5_retry_backoff_witness :
    (readBytesModel 4 9 (fun _ => none)).2 =
      List.take (failCount (fun _ => none)) [1, 2] ∧
    ((readBytesModel 4 9 (fun _ => none)).1 = none ↔
      attemptOutcome none = none ∧ attemptOutcome none = none ∧
        attemptOutcome none = none) :=
  C5_retry_backoff 4 9 (fun _ => none)

/-- C8, counterexample.  A `200 OK` whose 5-byte body does not match the
3-byte requested span is returned as the read result on the first attempt
(no retry, no sleep), not treated as a failed attempt: `_read_bytes`
performs no length validation at all. -/
theorem C8_counterexample :
    readBytesModel 0 3 (fun _ => some (HttpResponse.mk 200 [1, 2, 3, 4, 5])) =
      (some [1, 2, 3, 4, 5], []) ∧
    ([1, 2, 3, 4, 5] : List Nat).length ≠ 3 := by
  constructor
  · rfl
  · decide

/-- C8, amended.  A ranged read accepts any `200 OK` response and returns its
body as the requested bytes without comparing the body length (or
Content-Length) to the requested span: for every requested span length and
every body, the attempt succeeds and the body is returned unchanged. -/
theorem C8_accepts_any_200 (start length : Nat) (content : List Nat) :
    attemptOutcome (some (HttpResponse.mk 200 content)) = some content ∧
    readBytesModel start length (fun _ => some (HttpResponse.mk 200 content)) =
      (some content, []) := by
  constructor
  · simp [attemptOutcome]
  · have u0 := readBytesGo_succ (fun _ => some (HttpResponse.mk 200 content)) 3 2 0
    rw [readBytesModel, u0]
    simp [attemptOutcome]

/-- Witness for C8_accepts_any_200 at a concrete mismatched span. -/
theorem C8_accepts_any_200_witness :
    attemptOutcome (some (HttpResponse.mk 200 [9])) = some [9] ∧
    readBytesModel 0 3 (fun _ => some (HttpResponse.mk 200 [9])) =
      (some [9], []) :=
  C8_accepts_any_200 0 3 [9]

/-! ## Filename decoding in the central-directory walk
src/peekxtract.py line 484 decodes member names with
`filename_bytes.decode('utf-8', errors='ignore')`.  `utf8DecodeIgnore`
models CPython's UTF-8 decoder with the `ignore` error handler over byte
lists, producing the list of decoded code points: ASCII passes through,
well-formed multi-byte sequences decode (with the RFC 3629 restrictions on
continuation ranges that CPython enforces: no overlong forms, no
surrogates, nothing above U+10FFFF), and on error the bytes of the maximal
valid subpart are skipped and nothing is emitted — invalid bytes are
dropped, not replaced. -/

/-- The decoder loop; `fuel` decreases by one per processed error or decoded
code point while the byte list shrinks by at least one, so
`fuel = l.length` (as passed by `utf8DecodeIgnore`) never runs out. -/
def utf8Go : Nat → List Nat → List Nat
  | 0, _ => []
  | _, [] => []
  | fuel + 1, b :: rest =>
    if b < 128 then b :: utf8Go fuel rest
    else if b < 194 then utf8Go fuel rest
    else if b < 224 then
      match rest with
      | [] => []
      | c1 :: r1 =>
        if 128 ≤ c1 ∧ c1 < 192 then
          ((b - 192) * 64 + (c1 - 128)) :: utf8Go fuel r1
        else utf8Go fuel rest
    else if b < 240 then
      match rest with
      | [] => []
      | c1 :: r1 =>
        if (if b = 224 then 160 else 128) ≤ c1 ∧ c1 < (if b = 237 then 160 else 192) then
          match r1 with
          | [] => []
          | c2 :: r2 =>
            if 128 ≤ c2 ∧ c2 < 192 then
              ((b - 224) * 4096 + (c1 - 128) * 64 + (c2 - 128)) :: utf8Go fuel r2
            else utf8Go fuel r1
        else utf8Go fuel rest
    else if b < 245 then
      match rest with
      | [] => []
      | c1 :: r1 =>
        if (if b = 240 then 144 else 128) ≤ c1 ∧ c1 < (if b = 244 then 144 else 192) then
          match r1 with
          | [] => []
          | c2 :: r2 =>
            if 128 ≤ c2 ∧ c2 < 192 then
              match r2 with
              | [] => []
              | c3 :: r3 =>
                if 128 ≤ c3 ∧ c3 < 192 then
                  ((b - 240) * 262144 + (c1 - 128) * 4096 + (c2 - 128) * 64 + (c3 - 128)) ::
                    utf8Go fuel r3
                else utf8Go fuel r2
            else utf8Go fuel r1
        else utf8Go fuel rest
    else utf8Go fuel rest

/-- `bytes.decode('utf-8', errors='ignore')` as used on filename bytes. -/
def utf8DecodeIgnore (l : List Nat) : List Nat := utf8Go l.length l

/-- An ASCII byte passes through and the rest of the input is decoded. -/
theorem utf8Go_cons_ascii (fuel b : Nat) (rest : List Nat) (hb : b < 128) :
    utf8Go (fuel + 1) (b :: rest) = b :: utf8Go fuel rest := by
  simp only [utf8Go]
  rw [if_pos hb]

/-- The invalid start byte `FF` is dropped and decoding continues. -/
theorem utf8Go_cons_255 (fuel : Nat) (rest : List Nat) :
    utf8Go (fuel + 1) (255 :: rest) = utf8Go fuel rest := rfl

/-- ASCII byte lists decode to themselves. -/
theorem utf8Go_ascii (l : List Nat) (h : ∀ b ∈ l, b < 128) :
    utf8Go l.length l = l := by
  induction l with
  | nil => rfl
  | cons b rest ih =>
    have hb : b < 128 := h b (by simp)
    show utf8Go (rest.length + 1) (b :: rest) = b :: rest
    rw [utf8Go_cons_ascii _ _ _ hb, ih (fun x hx => h x (by simp [hx]))]

/-- C7, counterexample.  The filename byte string `61 FF 62` contains the
invalid byte `FF`; the walk's `decode('utf-8', errors='ignore')` yields the
code points `61 62` ("ab"): the invalid byte is silently dropped and the
replacement character U+FFFD (65533) appears nowhere, contradicting the
claimed replacement behavior. -/
theorem C7_counterexample :
    utf8DecodeIgnore [97, 255, 98] = [97, 98] ∧
    ¬ (65533 ∈ utf8DecodeIgnore [97, 255, 98]) := by
  constructor
  · rfl
  · decide

/-- C7, amended.  Member filenames are decoded as UTF-8 with invalid bytes
silently dropped (`errors='ignore'`), not replaced: for any ASCII context,
an invalid byte such as `FF` vanishes from the decoded name, and no
replacement character is introduced. -/
theorem C7_invalid_bytes_dropped (pre suf : List Nat)
    (hpre : ∀ b ∈ pre, b < 128) (hsuf : ∀ b ∈ suf, b < 128) :
    utf8DecodeIgnore (pre ++ 255 :: suf) = pre ++ suf ∧
    ¬ (65533 ∈ utf8DecodeIgnore (pre ++ 255 :: suf)) := by
  have key : utf8DecodeIgnore (pre ++ 255 :: suf) = pre ++ suf := by
    induction pre with
    | nil =>
      show utf8Go (suf.length + 1) (255 :: suf) = [] ++ suf
      rw [utf8Go_cons_255, utf8Go_ascii suf hsuf, List.nil_append]
    | cons b p ih =>
      have hb : b < 128 := hpre b (by simp)
      have hp : ∀ x ∈ p, x < 128 := fun x hx => hpre x (by simp [hx])
      have ih2 := ih hp
      show utf8Go ((p ++ 255 :: suf).length + 1) (b :: (p ++ 255 :: suf)) =
        b :: (p ++ suf)
      rw [utf8Go_cons_ascii _ _ _ hb]
      exact congrArg (b :: ·) ih2
  refine ⟨key, ?_⟩
  rw [key]
  intro hmem
  rcases List.mem_append.mp hmem with h | h
  · exact absurd (hpre _ h) (by omega)
  · exact absurd (hsuf _ h) (by omega)

/-- Witness for C7_invalid_bytes_dropped at `pre = [97]`, `suf = [98]`. -/
theorem C7_invalid_bytes_dropped_witness :
    (∀ b ∈ [97], b < 128) ∧ (∀ b ∈ [98], b < 128) ∧
    (utf8DecodeIgnore ([97] ++ 255 :: [98]) = [97] ++ [98] ∧
      ¬ (65533 ∈ utf8DecodeIgnore ([97] ++ 255 :: [98]))) :=
  ⟨by decide, by decide, C7_invalid_bytes_dropped [97] [98] (by decide) (by decide)⟩

/-! ## parse_range
Model of `parse_range(range_str, max_val)` (src/peekxtract.py lines
269-291).  Strings are `List Char`.  The input is split on commas, each part
is stripped; a part containing a dash is split at the first dash and both
halves parsed with Python `int()` (optional sign, digits, underscores
between digits); the segment contributes `range(start, end + 1)` when
`start <= end and start >= 1 and end <= max_val`, a dashless part
contributes its value when `1 <= num <= max_val`; `int()` failures
(`ValueError`) are swallowed by the `except` branches, and the function
returns `sorted(set(result))`. -/

/-- Python `str.split(sep)`: splits at every separator, keeping empty parts. -/
def pySplit (sep : Char) : List Char → List (List Char)
  | [] => [[]]
  | c :: rest =>
    let r := pySplit sep rest
    if c = sep then [] :: r
    else
      match r with
      | [] => [[c]]
      | h :: t => (c :: h) :: t

/-- Whitespace stripped by Python `str.strip()` (ASCII whitespace). -/
def pyIsSpace (c : Char) : Bool :=
  c == ' ' || c == '\t' || c == '\n' || c == '\x0d' || c == '\x0b' || c == '\x0c'

/-- Python `str.strip()`. -/
def pyStrip (s : List Char) : List Char :=
  ((s.dropWhile pyIsSpace).reverse.dropWhile pyIsSpace).reverse

/-- `part.split('-', 1)`: split at the first occurrence only; `none` models
`'-' not in part`. -/
def splitFirst (sep : Char) : List Char → Option (List Char × List Char)
  | [] => none
  | c :: rest =>
    if c = sep then some ([], rest)
    else (splitFirst sep rest).map (fun p => (c :: p.1, p.2))

/-- Decimal digit value of a character. -/
def charDigit (c : Char) : Option Nat :=
  if '0' ≤ c ∧ c ≤ '9' then some (c.toNat - 48) else none

/-- Digits after the first one: each is a digit or an underscore followed by
a digit (Python allows single underscores between digits). -/
def pyIntDigits : List Char → Option (List Nat)
  | [] => some []
  | '_' :: rest =>
    match rest with
    | [] => none
    | c :: rest2 =>
      match charDigit c with
      | some d => (pyIntDigits rest2).map (fun l => d :: l)
      | none => none
  | c :: rest =>
    match charDigit c with
    | some d => (pyIntDigits rest).map (fun l => d :: l)
    | none => none

/-- The digit part of `int()`: nonempty, starting with a digit. -/
def pyIntCore (s : List Char) : Option Nat :=
  match s with
  | [] => none
  | c :: rest =>
    match charDigit c with
    | some d =>
      (pyIntDigits rest).map (fun ds => (d :: ds).foldl (fun acc x => acc * 10 + x) 0)
    | none => none

/-- Python `int(str)`: strip whitespace, optional sign, digit run; `none`
models the `ValueError` the callers catch. -/
def pyInt (s : List Char) : Option Int :=
  match pyStrip s with
  | '+' :: rest => (pyIntCore rest).map (fun n => (n : Int))
  | '-' :: rest => (pyIntCore rest).map (fun n => -(n : Int))
  | t => (pyIntCore t).map (fun n => (n : Int))

/-- Consecutive integers starting at `a`, of the given length. -/
def intRangeGo (a : Int) : Nat → List Int
  | 0 => []
  | n + 1 => a :: intRangeGo (a + 1) n

/-- `range(a, b + 1)` as a list of integers. -/
def intRange (a b : Int) : List Int := intRangeGo a (b + 1 - a).toNat

/-- The values a single comma-separated part contributes to `result`. -/
def segmentValues (maxVal : Int) (part : List Char) : List Int :=
  let p := pyStrip part
  match splitFirst '-' p with
  | some (a, b) =>
    match pyInt a, pyInt b with
    | some s, some e =>
      if s ≤ e ∧ 1 ≤ s ∧ e ≤ maxVal then intRange s e else []
    | _, _ => []
  | none =>
    match pyInt p with
    | some n => if 1 ≤ n ∧ n ≤ maxVal then [n] else []
    | none => []

/-- Concatenation of all segment contributions in input order. -/
def collectSegments (maxVal : Int) : List (List Char) → List Int
  | [] => []
  | p :: ps => segmentValues maxVal p ++ collectSegments maxVal ps

/-- Insertion into a strictly sorted list, skipping duplicates. -/
def insertSorted (x : Int) : List Int → List Int
  | [] => [x]
  | y :: ys =>
    if x < y then x :: y :: ys
    else if x = y then y :: ys
    else y :: insertSorted x ys

/-- `sorted(set(l))`: the strictly increasing enumeration of the elements. -/
def sortedDedup (l : List Int) : List Int := l.foldr insertSorted []

/-- `parse_range(range_str, max_val)`. -/
def parseRange (s : List Char) (maxVal : Int) : List Int :=
  sortedDedup (collectSegments maxVal (pySplit ',' s))

theorem mem_insertSorted (x y : Int) (l : List Int) :
    y ∈ insertSorted x l ↔ y = x ∨ y ∈ l := by
  induction l with
  | nil => simp [insertSorted]
  | cons a as ih =>
    by_cases h1 : x < a
    · simp only [insertSorted, if_pos h1, List.mem_cons]
    · by_cases h2 : x = a
      · simp only [insertSorted, if_neg h1, if_pos h2, List.mem_cons]
        subst h2
        tauto
      · simp only [insertSorted, if_neg h1, if_neg h2, List.mem_cons, ih]
        tauto

theorem pairwise_insertSorted (x : Int) (l : List Int)
    (h : List.Pairwise (· < ·) l) :
    List.Pairwise (· < ·) (insertSorted x l) := by
  induction l with
  | nil => simp [insertSorted]
  | cons a as ih =>
    obtain ⟨ha, has⟩ := List.pairwise_cons.mp h
    by_cases h1 : x < a
    · rw [insertSorted, if_pos h1]
      refine List.pairwise_cons.mpr ⟨?_, h⟩
      intro z hz
      rcases List.mem_cons.mp hz with rfl | hz2
      · exact h1
      · exact lt_trans h1 (ha z hz2)
    · by_cases h2 : x = a
      · rw [insertSorted, if_neg h1, if_pos h2]
        exact h
      · rw [insertSorted, if_neg h1, if_neg h2]
        refine List.pairwise_cons.mpr ⟨?_, ih has⟩
        intro z hz
        rcases (mem_insertSorted x z as).mp hz with rfl | hz2
        · omega
        · exact ha z hz2

theorem pairwise_sortedDedup (l : List Int) :
    List.Pairwise (· < ·) (sortedDedup l) := by
  induction l with
  | nil => simp [sortedDedup]
  | cons a as ih => exact pairwise_insertSorted a _ ih

theorem mem_sortedDedup (l : List Int) (y : Int) :
    y ∈ sortedDedup l ↔ y ∈ l := by
  induction l with
  | nil => simp [sortedDedup]
  | cons a as ih =>
    show y ∈ insertSorted a (sortedDedup as) ↔ _
    rw [mem_insertSorted, ih, List.mem_cons]

theorem mem_intRangeGo (k : Nat) :
    ∀ (a n : Int), n ∈ intRangeGo a k → a ≤ n ∧ n < a + k := by
  induction k with
  | zero =>
    intro a n h
    simp [intRangeGo] at h
  | succ m ih =>
    intro a n h
    rw [intRangeGo] at h
    rcases List.mem_cons.mp h with rfl | h2
    · omega
    · have := ih (a + 1) n h2
      omega

theorem mem_intRange (a b n : Int) (h : n ∈ intRange a b) : a ≤ n ∧ n ≤ b := by
  have := mem_intRangeGo _ a n h
  omega

theorem segmentValues_bound (maxVal : Int) (part : List Char) (n : Int)
    (hn : n ∈ segmentValues maxVal part) : 1 ≤ n ∧ n ≤ maxVal := by
  simp only [segmentValues] at hn
  split at hn
  · split at hn
    · split at hn
      · have hb := mem_intRange _ _ _ hn
        omega
      · simp at hn
    · simp at hn
  · split at hn
    · split at hn
      · simp at hn
        omega
      · simp at hn
    · simp at hn

theorem collectSegments_bound (maxVal : Int) (parts : List (List Char)) (n : Int)
    (hn : n ∈ collectSegments maxVal parts) : 1 ≤ n ∧ n ≤ maxVal := by
  induction parts with
  | nil => simp [collectSegments] at hn
  | cons p ps ih =>
    rw [collectSegments] at hn
    rcases List.mem_append.mp hn with h | h
    · exact segmentValues_bound maxVal p n h
    · exact ih h

/-- C9: for every input string and bound, `parse_range` returns a strictly
increasing (hence duplicate-free) list whose members all lie in
`[1, max_val]`; malformed segments contribute nothing, and since every
`int()` failure is caught the model is a total function. -/
theorem C9_parse_range_valid (s : List Char) (maxVal : Int) :
    List.Pairwise (· < ·) (parseRange s maxVal) ∧
    ∀ n ∈ parseRange s maxVal, 1 ≤ n ∧ n ≤ maxVal := by
  constructor
  · exact pairwise_sortedDedup _
  · intro n hn
    exact collectSegments_bound maxVal _ n ((mem_sortedDedup _ _).mp hn)

/-- Witness for C9_parse_range_valid on the input `"1-3, 7, x"` with
`max_val = 5`. -/
theorem C9_parse_range_valid_witness :
    List.Pairwise (· < ·)
      (parseRange ['1', '-', '3', ',', ' ', '7', ',', ' ', 'x'] 5) ∧
    ∀ n ∈ parseRange ['1', '-', '3', ',', ' ', '7', ',', ' ', 'x'] 5,
      1 ≤ n ∧ n ≤ 5 :=
  C9_parse_range_valid ['1', '-', '3', ',', ' ', '7', ',', ' ', 'x'] 5

/-! ## list_files filtering and the display mapping
Model of `EnhancedRemoteZipReader.list_files` (src/peekxtract.py lines
543-574).  The catalog is the ordered list of member filenames (dict keys
`0..n-1`).  A filter pattern is first compiled as a case-insensitive regular
expression; on `re.error` a case-insensitive substring test is used instead.
The compiled regular expression is an external Python object, so it is
abstracted as a boolean match function together with a flag recording
whether compilation succeeded; the substring fallback
(`filter_lower in info['filename'].lower()`) is modelled concretely.
`listFilesMapping` returns `current_display_mapping` as the list whose entry
at display index `d` is the catalog index it maps to; when no entry matches,
lines 567-571 fall back to displaying everything with the identity mapping
`{i: i for i in self.files_info.keys()}`. -/

/-- A filter pattern as the CLI hands it to `list_files`: the raw pattern
characters, whether `re.compile` succeeds on it, and the abstracted
`pattern.search` test used when it does. -/
structure PyFilter where
  pattern : List Char
  regexValid : Bool
  regexMatch : List Char → Bool

/-- `str.lower()` (ASCII case folding). -/
def lowerAll (s : List Char) : List Char := s.map Char.toLower

/-- Does `pat` occur at the head of `s`? -/
def beginsWith : List Char → List Char → Bool
  | [], _ => true
  | _ :: _, [] => false
  | p :: ps, c :: cs => p == c && beginsWith ps cs

/-- Python's `in` on strings: contiguous substring occurrence. -/
def containsSeq (pat : List Char) : List Char → Bool
  | [] => beginsWith pat []
  | c :: cs => beginsWith pat (c :: cs) || containsSeq pat cs

/-- The per-name match test `list_files` applies: the compiled regex when it
exists, otherwise the case-insensitive substring test. -/
def filterPred (f : PyFilter) (name : List Char) : Bool :=
  if f.regexValid then f.regexMatch name
  else containsSeq (lowerAll f.pattern) (lowerAll name)

/-- `current_display_mapping` produced by `list_files`: position `d` holds
the catalog index shown at display index `d`. -/
def listFilesMapping (names : List (List Char)) (filt : Option PyFilter) :
    List Nat :=
  match filt with
  | none => List.range names.length
  | some f =>
    let m := (List.range names.length).filter (fun i => filterPred f (names.getD i []))
    if m.isEmpty then List.range names.length else m

/-- C10: when the filter pattern matches no catalog entry under the
interpretation the code uses — and in particular when it matches none under
both the regex and the substring interpretation — `list_files` falls back to
the identity display mapping over the whole catalog, identical to an
unfiltered listing, so display indices address the full catalog. -/
theorem C10_filter_fallback (names : List (List Char)) (f : PyFilter)
    (hre : ∀ name ∈ names, f.regexMatch name = false)
    (hsub : ∀ name ∈ names, containsSeq (lowerAll f.pattern) (lowerAll name) = false) :
    listFilesMapping names (some f) = List.range names.length ∧
    listFilesMapping names (some f) = listFilesMapping names none := by
  have hfalse : ∀ i ∈ List.range names.length,
      filterPred f (names.getD i []) = false := by
    intro i hi
    have hlt : i < names.length := List.mem_range.mp hi
    have hmem : names.getD i [] ∈ names := by
      rw [List.getD_eq_getElem names [] hlt]
      exact List.getElem_mem hlt
    unfold filterPred
    split
    · exact hre _ hmem
    · exact hsub _ hmem
  have hnil : (List.range names.length).filter
      (fun i => filterPred f (names.getD i [])) = [] := by
    rw [List.filter_eq_nil_iff]
    intro i hi
    rw [hfalse i hi]
    simp
  constructor
  · simp only [listFilesMapping]
    rw [hnil]
    rfl
  · simp only [listFilesMapping]
    rw [hnil]
    rfl

/-- Witness for C10_filter_fallback: a one-entry catalog and a valid-regex
filter that matches nothing. -/
theorem C10_filter_fallback_witness :
    (∀ name ∈ [['a', 'b']], (fun (_ : List Char) => false) name = false) ∧
    (∀ name ∈ [['a', 'b']],
      containsSeq (lowerAll ['z']) (lowerAll name) = false) ∧
    (listFilesMapping [['a', 'b']]
        (some (PyFilter.mk ['z'] true (fun _ => false))) =
      List.range [['a', 'b']].length ∧
    listFilesMapping [['a', 'b']]
        (some (PyFilter.mk ['z'] true (fun _ => false))) =
      listFilesMapping [['a', 'b']] none) :=
  ⟨by decide, by decide,
    C10_filter_fallback [['a', 'b']] (PyFilter.mk ['z'] true (fun _ => false))
      (by decide) (by decide)⟩

end PeekXtract
